import Mathlib

/-!
Verification of the hft-engine hot path: fixed-point numeric types
(`src/core/types.rs`), the bounded SPSC queue (`src/core/spsc.rs`), the
fixed-capacity sorted order book (`src/order_book.rs`), and the strategy and
risk pipeline stages (`src/pipeline/strategy.rs`, `src/pipeline/risk.rs`).
Rust i64/u64 raw values are modelled as `Int`/`Nat`; the u64 counters of the
queue and the cycle clock wrap modulo 2^64, made explicit by `wrapSub` and
`% U64`. Fallible operations return `Except`/`Option`.
-/

namespace HftEngine

/-! ## Fixed-point scalar types, from src/core/types.rs -/

/-- Fixed-point price: a signed 64-bit raw count of 1/10000 units
(`Price(i64)` in `src/core/types.rs`). -/
structure Price where
  raw : Int
deriving DecidableEq, Repr

/-- The fixed decimal scale (`Price::SCALE = 10_000`). -/
def Price.SCALE : Int := 10000

/-- `Price::from_raw`. -/
def Price.from_raw (r : Int) : Price := ⟨r⟩

/-- `Price::new(integer, fractional) = Price(integer * SCALE + fractional)`. -/
def Price.new (integer fractional : Int) : Price :=
  ⟨integer * Price.SCALE + fractional⟩

/-- `impl Add for Price`: lane-wise integer addition of the raw values. -/
def Price.add (a b : Price) : Price := ⟨a.raw + b.raw⟩

/-- `impl Sub for Price`: lane-wise integer subtraction of the raw values. -/
def Price.sub (a b : Price) : Price := ⟨a.raw - b.raw⟩

/-- Fixed-point quantity (`Quantity(i64)` in `src/core/types.rs`). -/
structure Quantity where
  raw : Int
deriving DecidableEq, Repr

/-- The fixed decimal scale (`Quantity::SCALE = 10_000`). -/
def Quantity.SCALE : Int := 10000

/-- `Quantity::from_raw`. -/
def Quantity.from_raw (r : Int) : Quantity := ⟨r⟩

/-- `Quantity::new(integer, fractional)`. -/
def Quantity.new (integer fractional : Int) : Quantity :=
  ⟨integer * Quantity.SCALE + fractional⟩

/-- `impl Add for Quantity`. -/
def Quantity.add (a b : Quantity) : Quantity := ⟨a.raw + b.raw⟩

/-- `impl Sub for Quantity`. -/
def Quantity.sub (a b : Quantity) : Quantity := ⟨a.raw - b.raw⟩

/-- `impl Mul for Quantity`: `Quantity((self.0 * rhs.0) / Self::SCALE)`.
Rust i64 division truncates toward zero, which is `Int.tdiv`. -/
def Quantity.mul (a b : Quantity) : Quantity :=
  ⟨Int.tdiv (a.raw * b.raw) Quantity.SCALE⟩

/-! ## Wrapping 64-bit counter arithmetic -/

/-- The modulus of Rust's 64-bit unsigned machine words. -/
def U64 : Nat := 2 ^ 64

/-- `a.wrapping_sub(b)` on u64 values (both operands are kept `< U64`). -/
def wrapSub (a b : Nat) : Nat := (a + U64 - b) % U64

/-! ## The SPSC queue, from src/core/spsc.rs -/

/-- Sequential state of `SpscQueue<T>`: the two monotone wrapping counters,
the backing buffer (uninitialised cells modelled as `default`), the buffer
length and the index mask (`capacity - 1`). -/
structure SpscQueue (T : Type) where
  head : Nat
  tail : Nat
  buffer : Nat → T
  bufferLen : Nat
  mask : Nat

/-- `SpscQueue::new(capacity)`. -/
def SpscQueue.new (T : Type) [Inhabited T] (capacity : Nat) : SpscQueue T :=
  { head := 0, tail := 0, buffer := fun _ => default,
    bufferLen := capacity, mask := capacity - 1 }

/-- `SpscQueue::push`: full when `tail.wrapping_sub(head) == buffer.len()`,
in which case the unstored value is handed back (`Err(value)`); otherwise the
slot at `tail & mask` is written and `tail` advances. -/
def SpscQueue.push {T : Type} (q : SpscQueue T) (value : T) :
    Except T (SpscQueue T) :=
  if wrapSub q.tail q.head = q.bufferLen then
    .error value
  else
    .ok { q with buffer := Function.update q.buffer (Nat.land q.tail q.mask) value,
                 tail := (q.tail + 1) % U64 }

/-- `SpscQueue::pop`: `None` when `head == tail`; otherwise the slot at
`head & mask` is read and `head` advances. -/
def SpscQueue.pop {T : Type} (q : SpscQueue T) : Option T × SpscQueue T :=
  if q.head = q.tail then
    (none, q)
  else
    (some (q.buffer (Nat.land q.head q.mask)), { q with head := (q.head + 1) % U64 })

/-- Drive a sequence of `push` calls, recording each call's success flag. -/
def SpscQueue.pushResults {T : Type} (q : SpscQueue T) :
    List T → SpscQueue T × List Bool
  | [] => (q, [])
  | v :: rest =>
    match q.push v with
    | .ok q' =>
      let r := q'.pushResults rest
      (r.1, true :: r.2)
    | .error _ =>
      let r := q.pushResults rest
      (r.1, false :: r.2)

theorem wrapSub_self_lt {a : Nat} (h : a < U64) : wrapSub a 0 = a := by
  unfold wrapSub U64 at *
  omega

theorem pushResults_ok {T : Type} (vs : List T) :
    ∀ (q : SpscQueue T) (n : Nat), q.head = 0 → q.tail = n →
      n + vs.length ≤ q.bufferLen → q.bufferLen < U64 →
      (q.pushResults vs).2 = List.replicate vs.length true ∧
      (q.pushResults vs).1.head = 0 ∧
      (q.pushResults vs).1.tail = n + vs.length ∧
      (q.pushResults vs).1.bufferLen = q.bufferLen := by
  induction vs with
  | nil =>
    intro q n hh ht hle hcap
    simp [SpscQueue.pushResults, hh, ht]
  | cons v rest ih =>
    intro q n hh ht hle hcap
    have hfull : wrapSub q.tail q.head ≠ q.bufferLen := by
      rw [hh, ht, wrapSub_self_lt (by simp at hle; omega)]
      simp at hle
      omega
    have hpush : q.push v =
        .ok { q with buffer := Function.update q.buffer (Nat.land q.tail q.mask) v,
                     tail := (q.tail + 1) % U64 } := by
      unfold SpscQueue.push
      rw [if_neg hfull]
    have htail' : (q.tail + 1) % U64 = n + 1 := by
      rw [ht]
      have h1 : n + 1 < U64 := by
        simp at hle
        unfold U64 at *
        omega
      exact Nat.mod_eq_of_lt h1
    unfold SpscQueue.pushResults
    rw [hpush]
    have := ih { q with buffer := Function.update q.buffer (Nat.land q.tail q.mask) v,
                        tail := (q.tail + 1) % U64 }
      (n + 1) hh (by simpa using htail') (by simp at hle ⊢; omega) (by simpa using hcap)
    simp only [List.length_cons]
    refine ⟨?_, ?_, ?_, ?_⟩
    · simp only [List.replicate_succ]
      exact congrArg (true :: ·) this.1
    · exact this.2.1
    · rw [this.2.2.1]; omega
    · exact this.2.2.2

/-- C2: for an `SpscQueue` constructed with capacity `C` (a positive power of
two, representable in a usize) and starting empty, `C` consecutive `push`
calls each return ok; the `(C+1)`-th `push` returns full, handing the
unstored value back to the caller unchanged; and `pop` on an empty queue
returns `None`. -/
theorem C2_spsc_capacity_pushes {T : Type} [Inhabited T]
    (C : Nat) (vs : List T) (w : T)
    (hpos : 0 < C) (hpow : ∃ k, C = 2 ^ k) (hrep : C < U64)
    (hlen : vs.length = C) :
    ((SpscQueue.new T C).pushResults vs).2 = List.replicate C true ∧
    ((SpscQueue.new T C).pushResults vs).1.push w = .error w ∧
    ((SpscQueue.new T C).pop).1 = none := by
  obtain ⟨hres, hh, ht, hcap⟩ :=
    pushResults_ok vs (SpscQueue.new T C) 0 rfl rfl (by simp [SpscQueue.new, hlen]) hrep
  refine ⟨by rw [hres, hlen], ?_, ?_⟩
  · unfold SpscQueue.push
    rw [if_pos]
    rw [hh, ht, hcap, hlen]
    simp [SpscQueue.new]
    exact wrapSub_self_lt hrep
  · unfold SpscQueue.pop SpscQueue.new
    simp

theorem C2_spsc_capacity_pushes_witness :
    0 < 4 ∧ (∃ k, 4 = 2 ^ k) ∧ 4 < U64 ∧
    (((SpscQueue.new Nat 4).pushResults [10, 20, 30, 40]).2 =
        List.replicate 4 true ∧
      ((SpscQueue.new Nat 4).pushResults [10, 20, 30, 40]).1.push 50 = .error 50 ∧
      ((SpscQueue.new Nat 4).pop).1 = none) :=
  ⟨by decide, ⟨2, rfl⟩, by unfold U64; omega,
    C2_spsc_capacity_pushes 4 [10, 20, 30, 40] 50 (by decide) ⟨2, rfl⟩
      (by unfold U64; omega) (by decide)⟩

/-! ## Message taxonomy, from src/messages.rs -/

/-- `Side` in src/messages.rs. -/
inductive Side where
  | buy
  | sell
deriving DecidableEq, Repr

/-- The opposite side (statement helper). -/
def Side.other : Side → Side
  | .buy => .sell
  | .sell => .buy

/-- `PriceLevel` in src/messages.rs (padding carries no information and is
omitted; equality in the source uses price, qty and order_count). -/
structure PriceLevel where
  price : Price
  qty : Quantity
  order_count : Nat
deriving DecidableEq, Repr

/-- `PriceLevel::new(price, qty)`: order_count starts at 1. -/
def PriceLevel.new (price : Price) (qty : Quantity) : PriceLevel :=
  { price := price, qty := qty, order_count := 1 }

/-- `PriceLevel::empty()`: the canonical empty slot. -/
def PriceLevel.empty : PriceLevel :=
  { price := Price.new 0 0, qty := Quantity.new 0 0, order_count := 0 }

/-- `SignalEvent` in src/messages.rs; timestamps are raw u64 cycle values. -/
inductive SignalEvent where
  | buy (symbol : Nat) (price : Price) (qty : Quantity) (timestamp : Nat)
  | sell (symbol : Nat) (price : Price) (qty : Quantity) (timestamp : Nat)
  | cancel (order_id : Nat) (timestamp : Nat)
deriving DecidableEq, Repr

/-- Whether a signal is a `Cancel` (statement helper). -/
def SignalEvent.isCancel : SignalEvent → Bool
  | .cancel _ _ => true
  | _ => false

/-- `Order` in src/messages.rs (padding omitted). -/
structure Order where
  id : Nat
  symbol : Nat
  price : Price
  qty : Quantity
  side : Side
  timestamp : Nat
deriving DecidableEq, Repr

/-- `Order::new`. -/
def Order.new (id symbol : Nat) (price : Price) (qty : Quantity)
    (side : Side) (timestamp : Nat) : Order :=
  { id := id, symbol := symbol, price := price, qty := qty,
    side := side, timestamp := timestamp }

/-- `RejectReason` in src/messages.rs. -/
inductive RejectReason where
  | positionLimitExceeded
  | rateLimitExceeded
  | invalidPrice
  | invalidQuantity
  | unknownSymbol
  | internalError
deriving DecidableEq, Repr

/-- `RiskDecision` in src/messages.rs. -/
inductive RiskDecision where
  | approve (order : Order)
  | reject (reason : RejectReason) (original_signal : SignalEvent)
deriving DecidableEq, Repr

/-! ## The risk stage, from src/pipeline/risk.rs -/

/-- `RiskConfig` (the cpu_id field plays no role in the decision logic). -/
structure RiskConfig where
  max_position : Quantity
  max_orders_per_second : Nat
deriving DecidableEq, Repr

/-- `RiskState` (`next_order_id` starts at 1; the AtomicU64 is only ever
touched by the risk thread, so it is modelled as a plain counter). -/
structure RiskState where
  current_position : Quantity
  order_count_this_second : Nat
  last_reset_time : Nat
  next_order_id : Nat
deriving DecidableEq, Repr

/-- `RiskState::new()`. -/
def RiskState.new : RiskState :=
  { current_position := Quantity.new 0 0, order_count_this_second := 0,
    last_reset_time := 0, next_order_id := 1 }

/-- The rate-limit window reset of `run_risk` (src/pipeline/risk.rs lines
67-71): `if current_time - state.last_reset_time > 1_000_000_000 { ... }`,
with the wrapping u64 subtraction made explicit. -/
def resetRateWindow (state : RiskState) (current_time : Nat) : RiskState :=
  if 1000000000 < wrapSub current_time state.last_reset_time then
    { state with order_count_this_second := 0, last_reset_time := current_time }
  else state

/-- One iteration of the `run_risk` loop body on a popped signal
(src/pipeline/risk.rs lines 62-166): the rate-limit window reset, then the
per-variant checks, returning the updated state and the emitted decision.
`current_time` is `start.cycles()` of the `rdtsc()` taken on entry. -/
def stepRisk (config : RiskConfig) (state : RiskState) (signal : SignalEvent)
    (current_time : Nat) : RiskState × RiskDecision :=
  let state := resetRateWindow state current_time
  match signal with
  | .buy symbol price qty timestamp =>
    if config.max_orders_per_second ≤ state.order_count_this_second then
      (state, .reject .rateLimitExceeded signal)
    else if config.max_position.raw < (state.current_position.add qty).raw then
      (state, .reject .positionLimitExceeded signal)
    else
      (({ state with
            current_position := state.current_position.add qty,
            order_count_this_second := state.order_count_this_second + 1,
            next_order_id := state.next_order_id + 1 }),
        .approve (Order.new state.next_order_id symbol price qty .buy timestamp))
  | .sell symbol price qty timestamp =>
    if config.max_orders_per_second ≤ state.order_count_this_second then
      (state, .reject .rateLimitExceeded signal)
    else if (state.current_position.sub qty).raw < (Quantity.new (-1000) 0).raw then
      (state, .reject .positionLimitExceeded signal)
    else
      (({ state with
            current_position := state.current_position.sub qty,
            order_count_this_second := state.order_count_this_second + 1,
            next_order_id := state.next_order_id + 1 }),
        .approve (Order.new state.next_order_id symbol price qty .sell timestamp))
  | .cancel order_id timestamp =>
    (state,
      .approve (Order.new order_id 0 (Price.new 0 0) (Quantity.new 0 0) .buy timestamp))

/-- A single run of the risk stage over a list of timestamped input signals,
collecting the emitted decisions in order. -/
def runRisk (config : RiskConfig) :
    RiskState → List (Nat × SignalEvent) → RiskState × List RiskDecision
  | s, [] => (s, [])
  | s, (t, sig) :: rest =>
    let r := stepRisk config s sig t
    let rr := runRisk config r.1 rest
    (rr.1, r.2 :: rr.2)

/-- The order IDs carried by the `Approve` decisions of a decision list, in
emission order. -/
def approvedIds : List RiskDecision → List Nat
  | [] => []
  | .approve o :: rest => o.id :: approvedIds rest
  | .reject _ _ :: rest => approvedIds rest

theorem resetRateWindow_position (state : RiskState) (t : Nat) :
    (resetRateWindow state t).current_position = state.current_position := by
  unfold resetRateWindow
  split <;> rfl

theorem resetRateWindow_next_order_id (state : RiskState) (t : Nat) :
    (resetRateWindow state t).next_order_id = state.next_order_id := by
  unfold resetRateWindow
  split <;> rfl

/-- C3 counterexample: with `max_position = 500`, position 0 and a Sell of
qty 600, the claimed condition `current_position - qty < -max_position`
holds, yet the code approves the order and moves the position: the code's
short-side threshold is the hard-coded `Quantity::new(-1000, 0)`, not the
configured `-max_position`. -/
theorem C3_counterexample :
    ((RiskState.new.current_position.sub (Quantity.new 600 0)).raw <
        -(Quantity.new 500 0).raw) ∧
    (stepRisk ⟨Quantity.new 500 0, 100⟩ RiskState.new
        (.sell 1 (Price.new 100 0) (Quantity.new 600 0) 0) 0).2 =
      .approve (Order.new 1 1 (Price.new 100 0) (Quantity.new 600 0) .sell 0) ∧
    (stepRisk ⟨Quantity.new 500 0, 100⟩ RiskState.new
        (.sell 1 (Price.new 100 0) (Quantity.new 600 0) 0) 0).1.current_position ≠
      RiskState.new.current_position := by
  decide

/-- C3 (amended): for every Sell signal processed by the risk stage when the
rate limit is not hit, if `current_position - qty < Quantity::new(-1000, 0)`
(the hard-coded short-side threshold, raw -10,000,000) the signal is rejected
with position-limit-exceeded and the position is unchanged; otherwise it is
approved (with the next order ID) and the position decreases by qty. -/
theorem C3_sell_position_limit (config : RiskConfig) (state : RiskState)
    (symbol : Nat) (price : Price) (qty : Quantity) (ts t : Nat)
    (hrate : (resetRateWindow state t).order_count_this_second <
      config.max_orders_per_second) :
    (((state.current_position.sub qty).raw < (Quantity.new (-1000) 0).raw →
        (stepRisk config state (.sell symbol price qty ts) t).2 =
          .reject .positionLimitExceeded (.sell symbol price qty ts) ∧
        (stepRisk config state (.sell symbol price qty ts) t).1.current_position =
          state.current_position)) ∧
    ((¬ (state.current_position.sub qty).raw < (Quantity.new (-1000) 0).raw →
        (stepRisk config state (.sell symbol price qty ts) t).2 =
          .approve (Order.new state.next_order_id symbol price qty .sell ts) ∧
        (stepRisk config state (.sell symbol price qty ts) t).1.current_position =
          state.current_position.sub qty)) := by
  have hpos := resetRateWindow_position state t
  have hnid := resetRateWindow_next_order_id state t
  constructor
  · intro hlim
    simp only [stepRisk]
    rw [if_neg (by omega), if_pos (by rw [hpos]; exact hlim)]
    exact ⟨rfl, hpos⟩
  · intro hlim
    simp only [stepRisk]
    rw [if_neg (by omega), if_neg (by rw [hpos]; exact hlim)]
    refine ⟨by rw [hnid], by simp [hpos]⟩

theorem C3_sell_position_limit_witness :
    (resetRateWindow RiskState.new 0).order_count_this_second < 100 ∧
    (¬ (RiskState.new.current_position.sub (Quantity.new 600 0)).raw <
        (Quantity.new (-1000) 0).raw →
      (stepRisk ⟨Quantity.new 1000 0, 100⟩ RiskState.new
          (.sell 1 (Price.new 100 0) (Quantity.new 600 0) 0) 0).2 =
        .approve (Order.new 1 1 (Price.new 100 0) (Quantity.new 600 0) .sell 0) ∧
      (stepRisk ⟨Quantity.new 1000 0, 100⟩ RiskState.new
          (.sell 1 (Price.new 100 0) (Quantity.new 600 0) 0) 0).1.current_position =
        RiskState.new.current_position.sub (Quantity.new 600 0)) :=
  ⟨by decide,
    (C3_sell_position_limit ⟨Quantity.new 1000 0, 100⟩ RiskState.new
      1 (Price.new 100 0) (Quantity.new 600 0) 0 0 (by decide)).2⟩

/-- Modelled from the spec: the "configured one-second window (expressed in
cycles via the calibrated clock frequency)". The code has no configured
frequency at all (`RiskConfig` carries none), so the window is modelled from
the spec's words: one second at a calibrated frequency of `freq` cycles per
second is `freq` cycles. -/
def specOneSecondWindow (freq : Nat) : Nat := freq

/-- C4 counterexample: at a calibrated frequency of 500 MHz, one second is
500,000,000 cycles; with 700,000,000 cycles elapsed since the last reset the
claim requires the counter and last-reset time to be reset, but the code
compares against the hard-coded 1,000,000,000 and leaves both untouched
(counter goes 5 -> 6 by the approval, last reset time stays 0 instead of
becoming the current time 700,000,000). -/
theorem C4_counterexample :
    specOneSecondWindow 500000000 <
      wrapSub 700000000 (RiskState.mk (Quantity.new 0 0) 5 0 1).last_reset_time ∧
    (stepRisk ⟨Quantity.new 1000 0, 100⟩ (RiskState.mk (Quantity.new 0 0) 5 0 1)
        (.buy 1 (Price.new 100 0) (Quantity.new 1 0) 0)
        700000000).1.order_count_this_second = 6 ∧
    (stepRisk ⟨Quantity.new 1000 0, 100⟩ (RiskState.mk (Quantity.new 0 0) 5 0 1)
        (.buy 1 (Price.new 100 0) (Quantity.new 1 0) 0)
        700000000).1.last_reset_time = 0 ∧
    (0 : Nat) ≠ 700000000 := by
  decide

/-- C4 (amended): for every Buy or Sell signal, the risk stage first applies
the window reset with the hard-coded 1,000,000,000-cycle threshold (not a
configured frequency-calibrated one-second window): if the wrapped cycle
distance since the last reset exceeds 1,000,000,000 the per-second counter
and last-reset time are reset; then, if the (possibly reset) counter is at
`max_orders_per_second`, the signal is rejected with rate-limit-exceeded and
the state is exactly the post-reset state. -/
theorem C4_rate_limit_window (config : RiskConfig) (state : RiskState)
    (signal : SignalEvent) (t : Nat) (hsig : signal.isCancel = false) :
    (stepRisk config state signal t).1.last_reset_time =
      (resetRateWindow state t).last_reset_time ∧
    (config.max_orders_per_second ≤
        (resetRateWindow state t).order_count_this_second →
      stepRisk config state signal t =
        (resetRateWindow state t, .reject .rateLimitExceeded signal)) := by
  cases signal with
  | buy symbol price qty ts =>
    simp only [stepRisk]
    by_cases hrate : config.max_orders_per_second ≤
        (resetRateWindow state t).order_count_this_second
    · rw [if_pos hrate]
      exact ⟨rfl, fun _ => rfl⟩
    · rw [if_neg hrate]
      refine ⟨?_, fun h => absurd h hrate⟩
      split <;> rfl
  | sell symbol price qty ts =>
    simp only [stepRisk]
    by_cases hrate : config.max_orders_per_second ≤
        (resetRateWindow state t).order_count_this_second
    · rw [if_pos hrate]
      exact ⟨rfl, fun _ => rfl⟩
    · rw [if_neg hrate]
      refine ⟨?_, fun h => absurd h hrate⟩
      split <;> rfl
  | cancel oid ts =>
    simp [SignalEvent.isCancel] at hsig

theorem C4_rate_limit_window_witness :
    ((SignalEvent.buy 1 (Price.new 100 0) (Quantity.new 1 0) 0).isCancel = false) ∧
    (stepRisk ⟨Quantity.new 1000 0, 100⟩ (RiskState.mk (Quantity.new 0 0) 100 0 1)
        (.buy 1 (Price.new 100 0) (Quantity.new 1 0) 0) 0).1.last_reset_time =
      (resetRateWindow (RiskState.mk (Quantity.new 0 0) 100 0 1) 0).last_reset_time ∧
    ((100 : Nat) ≤
        (resetRateWindow (RiskState.mk (Quantity.new 0 0) 100 0 1)
          0).order_count_this_second →
      stepRisk ⟨Quantity.new 1000 0, 100⟩ (RiskState.mk (Quantity.new 0 0) 100 0 1)
          (.buy 1 (Price.new 100 0) (Quantity.new 1 0) 0) 0 =
        (resetRateWindow (RiskState.mk (Quantity.new 0 0) 100 0 1) 0,
          .reject .rateLimitExceeded
            (.buy 1 (Price.new 100 0) (Quantity.new 1 0) 0))) :=
  ⟨rfl,
    C4_rate_limit_window ⟨Quantity.new 1000 0, 100⟩
      (RiskState.mk (Quantity.new 0 0) 100 0 1)
      (.buy 1 (Price.new 100 0) (Quantity.new 1 0) 0) 0 rfl⟩

/-- C10: when the risk stage processes a Cancel signal and the rate-limit
window has not elapsed since the last reset, the risk state is left entirely
unchanged (position, per-second counter, last-reset time and next-order-ID),
and it emits Approve of an Order with id equal to the cancel's order_id,
symbol 0, price 0, quantity 0 and side Buy. -/
theorem C10_cancel_frame (config : RiskConfig) (state : RiskState)
    (order_id ts t : Nat)
    (h : ¬ 1000000000 < wrapSub t state.last_reset_time) :
    stepRisk config state (.cancel order_id ts) t =
      (state,
        .approve (Order.new order_id 0 (Price.new 0 0) (Quantity.new 0 0) .buy ts)) := by
  simp only [stepRisk, resetRateWindow, if_neg h]

theorem C10_cancel_frame_witness :
    ¬ 1000000000 < wrapSub 5 RiskState.new.last_reset_time ∧
    stepRisk ⟨Quantity.new 1000 0, 100⟩ RiskState.new (.cancel 42 5) 5 =
      (RiskState.new,
        .approve (Order.new 42 0 (Price.new 0 0) (Quantity.new 0 0) .buy 5)) :=
  ⟨by decide, C10_cancel_frame ⟨Quantity.new 1000 0, 100⟩
    RiskState.new 42 5 5 (by decide)⟩

theorem stepRisk_order_id (config : RiskConfig) (s : RiskState)
    (sig : SignalEvent) (t : Nat) (hsig : sig.isCancel = false) :
    ((∃ r, (stepRisk config s sig t).2 = .reject r sig) ∧
      (stepRisk config s sig t).1.next_order_id = s.next_order_id) ∨
    ((∃ o, (stepRisk config s sig t).2 = .approve o ∧ o.id = s.next_order_id) ∧
      (stepRisk config s sig t).1.next_order_id = s.next_order_id + 1) := by
  have hnid := resetRateWindow_next_order_id s t
  cases sig with
  | buy symbol price qty ts =>
    simp only [stepRisk]
    split
    · exact .inl ⟨⟨_, rfl⟩, hnid⟩
    · split
      · exact .inl ⟨⟨_, rfl⟩, hnid⟩
      · exact .inr ⟨⟨_, rfl, hnid⟩, by simp [hnid]⟩
  | sell symbol price qty ts =>
    simp only [stepRisk]
    split
    · exact .inl ⟨⟨_, rfl⟩, hnid⟩
    · split
      · exact .inl ⟨⟨_, rfl⟩, hnid⟩
      · exact .inr ⟨⟨_, rfl, hnid⟩, by simp [hnid]⟩
  | cancel oid ts =>
    simp [SignalEvent.isCancel] at hsig

theorem approvedIds_runRisk (config : RiskConfig)
    (inputs : List (Nat × SignalEvent)) :
    ∀ s : RiskState, (∀ p ∈ inputs, p.2.isCancel = false) →
      approvedIds (runRisk config s inputs).2 =
        List.range' s.next_order_id
          (approvedIds (runRisk config s inputs).2).length := by
  induction inputs with
  | nil =>
    intro s _
    simp [runRisk, approvedIds]
  | cons p rest ih =>
    intro s h
    obtain ⟨t, sig⟩ := p
    have hsig : sig.isCancel = false := h _ (List.mem_cons_self _ _)
    have hrest : ∀ p ∈ rest, p.2.isCancel = false :=
      fun p hp => h p (List.mem_cons_of_mem _ hp)
    have hrun : (runRisk config s ((t, sig) :: rest)).2 =
        (stepRisk config s sig t).2 ::
          (runRisk config (stepRisk config s sig t).1 rest).2 := rfl
    rcases stepRisk_order_id config s sig t hsig with
      ⟨⟨r, hdec⟩, hid⟩ | ⟨⟨o, hdec, hoid⟩, hid⟩
    · rw [hrun, hdec]
      have := ih (stepRisk config s sig t).1 hrest
      rw [hid] at this
      simpa [approvedIds] using this
    · rw [hrun, hdec]
      have := ih (stepRisk config s sig t).1 hrest
      rw [hid] at this
      simp only [approvedIds, hoid, List.length_cons]
      rw [this, List.range'_succ]
      simp [List.length_range']

/-- C7 counterexample: a run consisting of a single Cancel signal with
order_id 7 makes the risk stage emit Approve with id 7 (the cancel's id, the
order-ID counter is not consulted), so the emitted Approve id sequence [7]
does not start at 1 and the claim fails for inputs that include Cancels. -/
theorem C7_counterexample :
    approvedIds (runRisk ⟨Quantity.new 1000 0, 100⟩ RiskState.new
        [(0, .cancel 7 0)]).2 = [7] ∧
    ¬ approvedIds (runRisk ⟨Quantity.new 1000 0, 100⟩ RiskState.new
          [(0, .cancel 7 0)]).2 =
        List.range' 1
          (approvedIds (runRisk ⟨Quantity.new 1000 0, 100⟩ RiskState.new
            [(0, .cancel 7 0)]).2).length := by
  decide

/-- C7 (amended): over a single run of the risk stage, for every sequence of
input signals that contains no Cancel signal, the order IDs carried by the
Approve decisions it emits, taken in emission order, are strictly increasing
with no gaps, starting at 1 (i.e. they are exactly 1, 2, 3, ...). Cancel
signals break the property because their Approve re-uses the cancel's own
order_id without consulting the counter. -/
theorem C7_order_ids_consecutive (config : RiskConfig)
    (inputs : List (Nat × SignalEvent))
    (h : ∀ p ∈ inputs, p.2.isCancel = false) :
    approvedIds (runRisk config RiskState.new inputs).2 =
      List.range' 1
        (approvedIds (runRisk config RiskState.new inputs).2).length :=
  approvedIds_runRisk config inputs RiskState.new h

theorem C7_order_ids_consecutive_witness :
    (∀ p ∈ [((0 : Nat), SignalEvent.buy 1 (Price.new 100 0) (Quantity.new 10 0) 0),
            ((0 : Nat), SignalEvent.sell 1 (Price.new 100 0) (Quantity.new 10 0) 0)],
      p.2.isCancel = false) ∧
    approvedIds (runRisk ⟨Quantity.new 1000 0, 100⟩ RiskState.new
        [(0, .buy 1 (Price.new 100 0) (Quantity.new 10 0) 0),
         (0, .sell 1 (Price.new 100 0) (Quantity.new 10 0) 0)]).2 =
      List.range' 1
        (approvedIds (runRisk ⟨Quantity.new 1000 0, 100⟩ RiskState.new
          [(0, .buy 1 (Price.new 100 0) (Quantity.new 10 0) 0),
           (0, .sell 1 (Price.new 100 0) (Quantity.new 10 0) 0)]).2).length :=
  ⟨by decide,
    C7_order_ids_consecutive ⟨Quantity.new 1000 0, 100⟩
      [(0, .buy 1 (Price.new 100 0) (Quantity.new 10 0) 0),
       (0, .sell 1 (Price.new 100 0) (Quantity.new 10 0) 0)] (by decide)⟩

/-- C5 counterexample: Quantity multiplication does not rescale exactly.
For `a = b = Quantity::from_raw(1)` (value 0.0001), the product's raw value
is `(1 * 1) / 10000 = 0` by truncating integer division, so
`(a*b).raw() * 10000 = 0 ≠ 1 = a.raw() * b.raw()`. -/
theorem C5_counterexample :
    ((Quantity.from_raw 1).mul (Quantity.from_raw 1)).raw * 10000 ≠
      (Quantity.from_raw 1).raw * (Quantity.from_raw 1).raw := by
  decide

/-- C5 (amended): Price and Quantity addition and subtraction are exact
lane-wise integer operations on the raw values; Quantity multiplication
computes `(a.raw() * b.raw()) / 10000` with i64 division truncating toward
zero, so it rescales by the scale factor 10000 exactly if and only if 10000
divides `a.raw() * b.raw()` (otherwise the low fractional digits are
truncated). -/
theorem C5_fixed_point_arithmetic (a b : Price) (c d : Quantity) :
    (a.add b).raw = a.raw + b.raw ∧
    (a.sub b).raw = a.raw - b.raw ∧
    (c.add d).raw = c.raw + d.raw ∧
    (c.sub d).raw = c.raw - d.raw ∧
    (c.mul d).raw = Int.tdiv (c.raw * d.raw) 10000 ∧
    ((c.mul d).raw * 10000 = c.raw * d.raw ↔ (10000 : Int) ∣ c.raw * d.raw) := by
  refine ⟨rfl, rfl, rfl, rfl, rfl, ?_, ?_⟩
  · intro h
    exact ⟨(c.mul d).raw, by omega⟩
  · rintro ⟨k, hk⟩
    rw [show (c.mul d).raw = Int.tdiv (c.raw * d.raw) 10000 from rfl, hk,
      Int.mul_tdiv_cancel_left k (by omega)]
    omega

/-! ## The strategy stage's cached best bid/ask, from src/pipeline/strategy.rs -/

/-- The strategy loop's cached top of book: the local mutable
`best_bid`/`best_ask` `Option<Price>` pair of `run_strategy`. -/
structure StrategyCache where
  best_bid : Option Price
  best_ask : Option Price
deriving DecidableEq, Repr

/-- The `MarketEvent::Tick` handling of `run_strategy`
(src/pipeline/strategy.rs lines 52-63): on a Buy-side tick, replace the
cached bid when `best_bid.is_none() || price > best_bid.unwrap()`; on a
Sell-side tick, replace the cached ask when
`best_ask.is_none() || price < best_ask.unwrap()`. -/
def strategyTick (c : StrategyCache) (side : Side) (price : Price) :
    StrategyCache :=
  match side with
  | .buy =>
    match c.best_bid with
    | none => { c with best_bid := some price }
    | some b => if b.raw < price.raw then { c with best_bid := some price } else c
  | .sell =>
    match c.best_ask with
    | none => { c with best_ask := some price }
    | some a => if price.raw < a.raw then { c with best_ask := some price } else c

/-- Fold a sequence of Tick events into the strategy cache. -/
def strategyTicks (c : StrategyCache) : List (Side × Price) → StrategyCache
  | [] => c
  | (side, price) :: rest => strategyTicks (strategyTick c side price) rest

theorem strategyTick_bid_mono (c : StrategyCache) (side : Side) (price : Price)
    (b b' : Price) (hb : c.best_bid = some b)
    (hb' : (strategyTick c side price).best_bid = some b') : b.raw ≤ b'.raw := by
  cases side with
  | buy =>
    simp only [strategyTick, hb] at hb'
    split at hb'
    · simp only [Option.some.injEq] at hb'
      subst hb'
      omega
    · rw [hb] at hb'
      simp only [Option.some.injEq] at hb'
      subst hb'
      omega
  | sell =>
    cases hask : c.best_ask with
    | none =>
      simp only [strategyTick, hask, hb] at hb'
      simp only [Option.some.injEq] at hb'
      subst hb'
      omega
    | some a =>
      simp only [strategyTick, hask] at hb'
      split at hb' <;> rw [hb] at hb' <;>
        simp only [Option.some.injEq] at hb' <;> subst hb' <;> omega

theorem strategyTick_ask_mono (c : StrategyCache) (side : Side) (price : Price)
    (a a' : Price) (ha : c.best_ask = some a)
    (ha' : (strategyTick c side price).best_ask = some a') : a'.raw ≤ a.raw := by
  cases side with
  | sell =>
    simp only [strategyTick, ha] at ha'
    split at ha'
    · simp only [Option.some.injEq] at ha'
      subst ha'
      omega
    · rw [ha] at ha'
      simp only [Option.some.injEq] at ha'
      subst ha'
      omega
  | buy =>
    cases hbid : c.best_bid with
    | none =>
      simp only [strategyTick, hbid, ha] at ha'
      simp only [Option.some.injEq] at ha'
      subst ha'
      omega
    | some b =>
      simp only [strategyTick, hbid] at ha'
      split at ha' <;> rw [ha] at ha' <;>
        simp only [Option.some.injEq] at ha' <;> subst ha' <;> omega

theorem strategyTick_bid_isSome (c : StrategyCache) (side : Side) (price : Price)
    (b : Price) (hb : c.best_bid = some b) :
    ∃ b', (strategyTick c side price).best_bid = some b' := by
  cases side with
  | buy =>
    simp only [strategyTick, hb]
    split
    · exact ⟨price, rfl⟩
    · exact ⟨b, hb⟩
  | sell =>
    cases hask : c.best_ask with
    | none => exact ⟨b, by simpa [strategyTick, hask] using hb⟩
    | some a =>
      simp only [strategyTick, hask]
      split
      · exact ⟨b, hb⟩
      · exact ⟨b, hb⟩

theorem strategyTick_ask_isSome (c : StrategyCache) (side : Side) (price : Price)
    (a : Price) (ha : c.best_ask = some a) :
    ∃ a', (strategyTick c side price).best_ask = some a' := by
  cases side with
  | sell =>
    simp only [strategyTick, ha]
    split
    · exact ⟨price, rfl⟩
    · exact ⟨a, ha⟩
  | buy =>
    cases hbid : c.best_bid with
    | none => exact ⟨a, by simpa [strategyTick, hbid] using ha⟩
    | some b =>
      simp only [strategyTick, hbid]
      split
      · exact ⟨a, ha⟩
      · exact ⟨a, ha⟩

theorem strategyTicks_bid_mono (ticks : List (Side × Price)) :
    ∀ (c : StrategyCache) (b b' : Price), c.best_bid = some b →
      (strategyTicks c ticks).best_bid = some b' → b.raw ≤ b'.raw := by
  induction ticks with
  | nil =>
    intro c b b' hb hb'
    simp only [strategyTicks] at hb'
    rw [hb] at hb'
    simp only [Option.some.injEq] at hb'
    subst hb'
    omega
  | cons p rest ih =>
    intro c b b' hb hb'
    obtain ⟨side, price⟩ := p
    obtain ⟨m, hm⟩ := strategyTick_bid_isSome c side price b hb
    have h1 := strategyTick_bid_mono c side price b m hb hm
    have h2 := ih (strategyTick c side price) m b' hm (by simpa [strategyTicks] using hb')
    omega

theorem strategyTicks_ask_mono (ticks : List (Side × Price)) :
    ∀ (c : StrategyCache) (a a' : Price), c.best_ask = some a →
      (strategyTicks c ticks).best_ask = some a' → a'.raw ≤ a.raw := by
  induction ticks with
  | nil =>
    intro c a a' ha ha'
    simp only [strategyTicks] at ha'
    rw [ha] at ha'
    simp only [Option.some.injEq] at ha'
    subst ha'
    omega
  | cons p rest ih =>
    intro c a a' ha ha'
    obtain ⟨side, price⟩ := p
    obtain ⟨m, hm⟩ := strategyTick_ask_isSome c side price a ha
    have h1 := strategyTick_ask_mono c side price a m ha hm
    have h2 := ih (strategyTick c side price) m a' hm (by simpa [strategyTicks] using ha')
    omega

/-- C9: a Tick updates the cached best bid exactly when its side is Buy and
its price is strictly greater than the cached bid (or no bid is cached yet),
and the cached best ask exactly when its side is Sell and its price is
strictly lower than the cached ask (or none is cached); when it updates, the
new cached value is the tick's price. Consequently, across any sequence of
Tick events the cached best bid never decreases and the cached best ask
never increases. -/
theorem C9_strategy_tick_cache :
    (∀ (c : StrategyCache) (side : Side) (price : Price),
      ((strategyTick c side price).best_bid ≠ c.best_bid ↔
        (side = .buy ∧ (c.best_bid = none ∨
          ∃ b, c.best_bid = some b ∧ b.raw < price.raw))) ∧
      ((strategyTick c side price).best_bid ≠ c.best_bid →
        (strategyTick c side price).best_bid = some price) ∧
      ((strategyTick c side price).best_ask ≠ c.best_ask ↔
        (side = .sell ∧ (c.best_ask = none ∨
          ∃ a, c.best_ask = some a ∧ price.raw < a.raw))) ∧
      ((strategyTick c side price).best_ask ≠ c.best_ask →
        (strategyTick c side price).best_ask = some price)) ∧
    (∀ (ticks : List (Side × Price)) (c : StrategyCache) (b b' : Price),
      c.best_bid = some b → (strategyTicks c ticks).best_bid = some b' →
        b.raw ≤ b'.raw) ∧
    (∀ (ticks : List (Side × Price)) (c : StrategyCache) (a a' : Price),
      c.best_ask = some a → (strategyTicks c ticks).best_ask = some a' →
        a'.raw ≤ a.raw) := by
  refine ⟨?_, fun ticks => strategyTicks_bid_mono ticks,
    fun ticks => strategyTicks_ask_mono ticks⟩
  intro c side price
  refine ⟨?_, ?_, ?_, ?_⟩
  · constructor
    · intro hne
      cases side with
      | buy =>
        refine ⟨rfl, ?_⟩
        cases hb : c.best_bid with
        | none => exact .inl rfl
        | some b =>
          refine .inr ⟨b, rfl, ?_⟩
          by_contra hlt
          apply hne
          simp [strategyTick, hb, if_neg hlt]
      | sell =>
        exfalso
        apply hne
        cases hask : c.best_ask with
        | none => simp [strategyTick, hask]
        | some a => simp [strategyTick, hask]; split <;> rfl
    · rintro ⟨hside, hcond⟩
      subst hside
      rcases hcond with hnone | ⟨b, hb, hlt⟩
      · simp [strategyTick, hnone]
      · simp only [strategyTick, hb, if_pos hlt]
        simp only [ne_eq, Option.some.injEq]
        intro h
        rw [h] at hlt
        omega
  · intro hne
    cases side with
    | buy =>
      cases hb : c.best_bid with
      | none => simp [strategyTick, hb]
      | some b =>
        by_cases hlt : b.raw < price.raw
        · simp [strategyTick, hb, if_pos hlt]
        · exfalso; apply hne; simp [strategyTick, hb, if_neg hlt]
    | sell =>
      exfalso
      apply hne
      cases hask : c.best_ask with
      | none => simp [strategyTick, hask]
      | some a => simp [strategyTick, hask]; split <;> rfl
  · constructor
    · intro hne
      cases side with
      | sell =>
        refine ⟨rfl, ?_⟩
        cases ha : c.best_ask with
        | none => exact .inl rfl
        | some a =>
          refine .inr ⟨a, rfl, ?_⟩
          by_contra hlt
          apply hne
          simp [strategyTick, ha, if_neg hlt]
      | buy =>
        exfalso
        apply hne
        cases hb : c.best_bid with
        | none => simp [strategyTick, hb]
        | some b => simp [strategyTick, hb]; split <;> rfl
    · rintro ⟨hside, hcond⟩
      subst hside
      rcases hcond with hnone | ⟨a, ha, hlt⟩
      · simp [strategyTick, hnone]
      · simp only [strategyTick, ha, if_pos hlt]
        simp only [ne_eq, Option.some.injEq]
        intro h
        rw [h] at hlt
        omega
  · intro hne
    cases side with
    | sell =>
      cases ha : c.best_ask with
      | none => simp [strategyTick, ha]
      | some a =>
        by_cases hlt : price.raw < a.raw
        · simp [strategyTick, ha, if_pos hlt]
        · exfalso; apply hne; simp [strategyTick, ha, if_neg hlt]
    | buy =>
      exfalso
      apply hne
      cases hb : c.best_bid with
      | none => simp [strategyTick, hb]
      | some b => simp [strategyTick, hb]; split <;> rfl

theorem C9_strategy_tick_cache_witness :
    ((StrategyCache.mk (some (Price.new 100 0)) none).best_bid =
        some (Price.new 100 0)) ∧
    (strategyTicks (StrategyCache.mk (some (Price.new 100 0)) none)
        [(.buy, Price.new 105 0)]).best_bid = some (Price.new 105 0) ∧
    (Price.new 100 0).raw ≤ (Price.new 105 0).raw :=
  ⟨rfl, by decide,
    C9_strategy_tick_cache.2.1 [(.buy, Price.new 105 0)]
      (StrategyCache.mk (some (Price.new 100 0)) none)
      (Price.new 100 0) (Price.new 105 0) rfl (by decide)⟩

/-! ## The fixed-capacity sorted order book, from src/order_book.rs

The two `[PriceLevel; MAX_LEVELS]` arrays are modelled as total maps
`Nat → PriceLevel`; the code only ever reads and writes indices below
`MAX_LEVELS`. The bid and ask paths of the source are textually identical
except for the price comparison used, so they are embedded through one
side-generic code path instantiated with the two comparisons. -/

/-- `MAX_LEVELS` from src/messages.rs. -/
def MAX_LEVELS : Nat := 10

/-- The bid-side comparison of src/order_book.rs: in `find_bid_position` a
scan continues while `bids[pos].price > price`, i.e. while the stored price
beats (is better than) the incoming one. -/
def bidBeats (a b : Price) : Bool := decide (b.raw < a.raw)

/-- The ask-side comparison: `find_ask_position` scans while
`asks[pos].price < price`. -/
def askBeats (a b : Price) : Bool := decide (a.raw < b.raw)

/-- The scan loop of `find_bid_position`/`find_ask_position`:
`while pos < depth && beats(arr[pos].price, price) { pos += 1 }`. The bound
`pos < depth` is carried as the structural fuel `n = depth - pos`, so the
recursion is structural and reduces in the kernel. -/
def findPosAux (beats : Price → Price → Bool) (arr : Nat → PriceLevel)
    (price : Price) : Nat → Nat → Nat
  | 0, pos => pos
  | n + 1, pos =>
    if beats (arr pos).price price then findPosAux beats arr price n (pos + 1)
    else pos

/-- `find_bid_position`/`find_ask_position`, starting the scan at 0. -/
def find_position (beats : Price → Price → Bool) (arr : Nat → PriceLevel)
    (depth : Nat) (price : Price) : Nat :=
  findPosAux beats arr price depth 0

/-- The right-shift loop of `insert_bid`/`insert_ask`:
`for i in (pos..hi).rev() { arr[i+1] = arr[i] }`, iterating `i` from
`hi - 1` down to `pos` (structural recursion on `hi`). -/
def shiftRightLoop (arr : Nat → PriceLevel) (pos : Nat) :
    Nat → (Nat → PriceLevel)
  | 0 => arr
  | hi + 1 =>
    if pos < hi + 1 then
      shiftRightLoop (Function.update arr (hi + 1) (arr hi)) pos hi
    else arr

/-- The left-shift loop of `remove_bid`/`remove_ask`:
`for i in pos..hi { arr[i] = arr[i+1] }`, with the trip count `hi - pos`
as structural fuel. -/
def shiftLeftLoop (arr : Nat → PriceLevel) (pos : Nat) :
    Nat → (Nat → PriceLevel)
  | 0 => arr
  | n + 1 => shiftLeftLoop (Function.update arr pos (arr (pos + 1))) (pos + 1) n

/-- The common tail of `insert_bid`/`insert_ask`: shift the levels at
`pos..depth` one slot right, write the new level at `pos` and grow depth. -/
def insertLevelCore (arr : Nat → PriceLevel) (depth pos : Nat)
    (price : Price) (qty : Quantity) : (Nat → PriceLevel) × Nat :=
  (Function.update (shiftRightLoop arr pos depth) pos (PriceLevel.new price qty),
    depth + 1)

/-- `insert_bid`/`insert_ask` (src/order_book.rs lines 119-151): at full
depth an insert at position `>= MAX_LEVELS` is dropped, otherwise the worst
level is evicted by first clamping depth to `MAX_LEVELS - 1`. -/
def insertLevel (arr : Nat → PriceLevel) (depth pos : Nat)
    (price : Price) (qty : Quantity) : (Nat → PriceLevel) × Nat :=
  if MAX_LEVELS ≤ depth then
    if MAX_LEVELS ≤ pos then (arr, depth)
    else insertLevelCore arr (MAX_LEVELS - 1) pos price qty
  else insertLevelCore arr depth pos price qty

/-- `remove_bid`/`remove_ask` (src/order_book.rs lines 153-169): shift the
levels after `pos` one slot left, shrink depth and clear the vacated slot. -/
def removeLevel (arr : Nat → PriceLevel) (depth pos : Nat) :
    (Nat → PriceLevel) × Nat :=
  (Function.update (shiftLeftLoop arr pos (depth - 1 - pos)) (depth - 1)
    PriceLevel.empty, depth - 1)

/-- `update_bid`/`update_ask` (src/order_book.rs lines 67-99): find the
sorted position; qty 0 removes a matching level, otherwise a matching level
has its quantity replaced and a missing one is inserted. -/
def updateSide (beats : Price → Price → Bool) (arr : Nat → PriceLevel)
    (depth : Nat) (price : Price) (qty : Quantity) : (Nat → PriceLevel) × Nat :=
  let pos := find_position beats arr depth price
  if qty.raw = 0 then
    if pos < depth ∧ (arr pos).price = price then removeLevel arr depth pos
    else (arr, depth)
  else
    if pos < depth ∧ (arr pos).price = price then
      (Function.update arr pos { arr pos with qty := qty }, depth)
    else insertLevel arr depth pos price qty

/-- `OrderBook` from src/order_book.rs. -/
structure OrderBook where
  bids : Nat → PriceLevel
  asks : Nat → PriceLevel
  bid_depth : Nat
  ask_depth : Nat

/-- `OrderBook::new()`: all slots empty, both depths 0. -/
def OrderBook.new : OrderBook :=
  { bids := fun _ => PriceLevel.empty, asks := fun _ => PriceLevel.empty,
    bid_depth := 0, ask_depth := 0 }

/-- `OrderBook::update_bid`. -/
def OrderBook.update_bid (b : OrderBook) (price : Price) (qty : Quantity) :
    OrderBook :=
  let r := updateSide bidBeats b.bids b.bid_depth price qty
  { b with bids := r.1, bid_depth := r.2 }

/-- `OrderBook::update_ask`. -/
def OrderBook.update_ask (b : OrderBook) (price : Price) (qty : Quantity) :
    OrderBook :=
  let r := updateSide askBeats b.asks b.ask_depth price qty
  { b with asks := r.1, ask_depth := r.2 }

/-- `OrderBook::update_level`. -/
def OrderBook.update_level (b : OrderBook) (side : Side) (price : Price)
    (qty : Quantity) : OrderBook :=
  match side with
  | .buy => b.update_bid price qty
  | .sell => b.update_ask price qty

/-- `OrderBook::best_bid`. -/
def OrderBook.best_bid (b : OrderBook) : Option Price :=
  if 0 < b.bid_depth then some (b.bids 0).price else none

/-- `OrderBook::best_ask`. -/
def OrderBook.best_ask (b : OrderBook) : Option Price :=
  if 0 < b.ask_depth then some (b.asks 0).price else none

/-- `OrderBook::spread`: `ask - bid` when both sides are populated. -/
def OrderBook.spread (b : OrderBook) : Option Price :=
  match b.best_ask, b.best_bid with
  | some ask, some bid => some (ask.sub bid)
  | _, _ => none

/-- `OrderBook::mid_price`: `(ask.raw() + bid.raw()) / 2` with i64 division
(truncation toward zero). -/
def OrderBook.mid_price (b : OrderBook) : Option Price :=
  match b.best_ask, b.best_bid with
  | some ask, some bid => some (Price.from_raw (Int.tdiv (ask.raw + bid.raw) 2))
  | _, _ => none

/-- Apply a sequence of `update_level` calls to a fresh book. -/
def applyUpdates (ops : List (Side × Price × Quantity)) : OrderBook :=
  ops.foldl (fun b op => b.update_level op.1 op.2.1 op.2.2) OrderBook.new

/-- The array of the given side (statement helper). -/
def OrderBook.sideLevels (b : OrderBook) : Side → (Nat → PriceLevel)
  | .buy => b.bids
  | .sell => b.asks

/-- The depth of the given side (statement helper). -/
def OrderBook.sideDepth (b : OrderBook) : Side → Nat
  | .buy => b.bid_depth
  | .sell => b.ask_depth

/-! ### Side invariants and characterisation lemmas -/

/-- A side of the book is strictly sorted best-first: every earlier level
beats every later one within the populated prefix. -/
def SortedSide (beats : Price → Price → Bool) (arr : Nat → PriceLevel)
    (depth : Nat) : Prop :=
  ∀ i < depth, ∀ j < i, beats (arr j).price (arr i).price = true

/-- Every slot at or beyond the depth is the canonical empty level. -/
def EmptyBeyond (arr : Nat → PriceLevel) (depth : Nat) : Prop :=
  ∀ j, depth ≤ j → arr j = PriceLevel.empty

/-- The full invariant of one book side. -/
def SideInv (beats : Price → Price → Bool) (arr : Nat → PriceLevel)
    (depth : Nat) : Prop :=
  depth ≤ MAX_LEVELS ∧ SortedSide beats arr depth ∧ EmptyBeyond arr depth

theorem bidBeats_trans (a b c : Price) (h1 : bidBeats a b = true)
    (h2 : bidBeats b c = true) : bidBeats a c = true := by
  simp only [bidBeats, decide_eq_true_eq] at *
  omega

theorem bidBeats_conn (a b : Price) (h1 : bidBeats a b = false) (h2 : a ≠ b) :
    bidBeats b a = true := by
  simp only [bidBeats, decide_eq_false_iff_not, decide_eq_true_eq, not_lt] at *
  have h3 : a.raw ≠ b.raw := by
    intro he
    apply h2
    cases a
    cases b
    simpa using he
  omega

theorem bidBeats_irrefl (a : Price) : bidBeats a a = false := by
  simp [bidBeats]

theorem askBeats_trans (a b c : Price) (h1 : askBeats a b = true)
    (h2 : askBeats b c = true) : askBeats a c = true := by
  simp only [askBeats, decide_eq_true_eq] at *
  omega

theorem askBeats_conn (a b : Price) (h1 : askBeats a b = false) (h2 : a ≠ b) :
    askBeats b a = true := by
  simp only [askBeats, decide_eq_false_iff_not, decide_eq_true_eq, not_lt] at *
  have h3 : a.raw ≠ b.raw := by
    intro he
    apply h2
    cases a
    cases b
    simpa using he
  omega

theorem askBeats_irrefl (a : Price) : askBeats a a = false := by
  simp [askBeats]

theorem findPosAux_spec (beats : Price → Price → Bool) (arr : Nat → PriceLevel)
    (price : Price) :
    ∀ n pos,
      pos ≤ findPosAux beats arr price n pos ∧
      findPosAux beats arr price n pos ≤ pos + n ∧
      (∀ k, pos ≤ k → k < findPosAux beats arr price n pos →
        beats (arr k).price price = true) ∧
      (findPosAux beats arr price n pos < pos + n →
        beats (arr (findPosAux beats arr price n pos)).price price = false) := by
  intro n
  induction n with
  | zero =>
    intro pos
    simp only [findPosAux]
    refine ⟨Nat.le_refl pos, by omega,
      fun k hk1 hk2 => absurd (Nat.lt_of_le_of_lt hk1 hk2) (Nat.lt_irrefl pos),
      fun h => absurd h (by omega)⟩
  | succ m ih =>
    intro pos
    simp only [findPosAux]
    by_cases hb : beats (arr pos).price price = true
    · rw [if_pos hb]
      obtain ⟨ih1, ih2, ih3, ih4⟩ := ih (pos + 1)
      refine ⟨by omega, by omega, ?_, fun h => ih4 (by omega)⟩
      intro k hk1 hk2
      rcases Nat.eq_or_lt_of_le hk1 with heq | hlt
      · rw [← heq]
        exact hb
      · exact ih3 k hlt hk2
    · have hb' : beats (arr pos).price price = false := by
        simpa using hb
      rw [if_neg hb]
      exact ⟨Nat.le_refl pos, by omega,
        fun k hk1 hk2 => absurd (Nat.lt_of_le_of_lt hk1 hk2) (Nat.lt_irrefl pos),
        fun _ => hb'⟩

theorem find_position_spec (beats : Price → Price → Bool)
    (arr : Nat → PriceLevel) (depth : Nat) (price : Price) :
    find_position beats arr depth price ≤ depth ∧
    (∀ k, k < find_position beats arr depth price →
      beats (arr k).price price = true) ∧
    (find_position beats arr depth price < depth →
      beats (arr (find_position beats arr depth price)).price price = false) := by
  unfold find_position
  obtain ⟨h1, h2, h3, h4⟩ := findPosAux_spec beats arr price depth 0
  exact ⟨by omega, fun k hk => h3 k (Nat.zero_le k) hk, fun h => h4 (by omega)⟩

theorem shiftRightLoop_apply (pos : Nat) :
    ∀ (hi : Nat) (arr : Nat → PriceLevel), pos ≤ hi → ∀ j,
      shiftRightLoop arr pos hi j =
        if pos < j ∧ j ≤ hi then arr (j - 1) else arr j := by
  intro hi
  induction hi with
  | zero =>
    intro arr hle j
    show arr j = _
    rw [if_neg (by omega)]
  | succ m ih =>
    intro arr hle j
    show (if pos < m + 1 then
        shiftRightLoop (Function.update arr (m + 1) (arr m)) pos m
      else arr) j = _
    by_cases hp : pos < m + 1
    · rw [if_pos hp]
      rw [ih (Function.update arr (m + 1) (arr m)) (by omega) j]
      by_cases h1 : pos < j ∧ j ≤ m
      · rw [if_pos h1, if_pos (by omega)]
        rw [Function.update_noteq (by omega)]
      · rw [if_neg h1]
        by_cases h2 : j = m + 1
        · subst h2
          rw [Function.update_same, if_pos (by omega)]
          rfl
        · rw [Function.update_noteq h2]
          rw [if_neg (by omega)]
    · rw [if_neg hp]
      rw [if_neg (by omega)]

theorem shiftLeftLoop_apply :
    ∀ (n pos : Nat) (arr : Nat → PriceLevel) (j : Nat),
      shiftLeftLoop arr pos n j =
        if pos ≤ j ∧ j < pos + n then arr (j + 1) else arr j := by
  intro n
  induction n with
  | zero =>
    intro pos arr j
    show arr j = _
    rw [if_neg (by omega)]
  | succ m ih =>
    intro pos arr j
    show shiftLeftLoop (Function.update arr pos (arr (pos + 1))) (pos + 1) m j = _
    rw [ih (pos + 1) (Function.update arr pos (arr (pos + 1))) j]
    by_cases h1 : pos + 1 ≤ j ∧ j < pos + 1 + m
    · rw [if_pos h1, if_pos (by omega)]
      rw [Function.update_noteq (by omega)]
    · rw [if_neg h1]
      by_cases h2 : j = pos
      · subst h2
        rw [Function.update_same, if_pos (by omega)]
      · rw [Function.update_noteq h2]
        rw [if_neg (by omega)]

theorem insertLevelCore_apply (arr : Nat → PriceLevel) (d pos : Nat)
    (price : Price) (qty : Quantity) (hle : pos ≤ d) (j : Nat) :
    (insertLevelCore arr d pos price qty).1 j =
      if j = pos then PriceLevel.new price qty
      else if pos < j ∧ j ≤ d then arr (j - 1) else arr j := by
  show Function.update (shiftRightLoop arr pos d) pos (PriceLevel.new price qty) j = _
  by_cases hjp : j = pos
  · subst hjp
    rw [Function.update_same, if_pos rfl]
  · rw [Function.update_noteq hjp, if_neg hjp]
    exact shiftRightLoop_apply pos d arr hle j

theorem removeLevel_apply (arr : Nat → PriceLevel) (depth pos : Nat)
    (hlt : pos < depth) (j : Nat) :
    (removeLevel arr depth pos).1 j =
      if j = depth - 1 then PriceLevel.empty
      else if pos ≤ j ∧ j < depth - 1 then arr (j + 1) else arr j := by
  show Function.update (shiftLeftLoop arr pos (depth - 1 - pos)) (depth - 1)
    PriceLevel.empty j = _
  by_cases hjd : j = depth - 1
  · subst hjd
    rw [Function.update_same, if_pos rfl]
  · rw [Function.update_noteq hjd, if_neg hjd]
    rw [shiftLeftLoop_apply (depth - 1 - pos) pos arr j]
    have he : pos + (depth - 1 - pos) = depth - 1 := by omega
    rw [he]

theorem insertLevelCore_inv (beats : Price → Price → Bool)
    (htrans : ∀ a b c, beats a b = true → beats b c = true → beats a c = true)
    (arr : Nat → PriceLevel) (depth d pos : Nat) (price : Price) (qty : Quantity)
    (hposd : pos ≤ d) (hd1 : d + 1 ≤ MAX_LEVELS) (hdd : d ≤ depth)
    (hdep : depth ≤ d + 1)
    (hsorted : SortedSide beats arr depth) (hempty : EmptyBeyond arr depth)
    (hbefore : ∀ k, k < pos → beats (arr k).price price = true)
    (hat : pos < depth → beats price (arr pos).price = true) :
    SideInv beats (insertLevelCore arr d pos price qty).1
      (insertLevelCore arr d pos price qty).2 := by
  have hatk : ∀ k, pos ≤ k → k < depth → beats price (arr k).price = true := by
    intro k hk1 hk2
    rcases Nat.eq_or_lt_of_le hk1 with heq | hltk
    · rw [← heq]
      exact hat (by omega)
    · exact htrans price (arr pos).price (arr k).price (hat (by omega))
        (hsorted k hk2 pos hltk)
  have hchar := insertLevelCore_apply arr d pos price qty hposd
  have hd2 : (insertLevelCore arr d pos price qty).2 = d + 1 := rfl
  refine ⟨by rw [hd2]; exact hd1, ?_, ?_⟩
  · intro i hi j hj
    rw [hd2] at hi
    rw [hchar i, hchar j]
    split_ifs <;>
      first
        | omega
        | (exact hbefore _ (by omega))
        | (exact hatk _ (by omega) (by omega))
        | (exact hsorted _ (by omega) _ (by omega))
  · intro j hj
    rw [hd2] at hj
    rw [hchar j, if_neg (by omega), if_neg (by omega)]
    exact hempty j (by omega)

theorem removeLevel_inv (beats : Price → Price → Bool) (arr : Nat → PriceLevel)
    (depth pos : Nat) (hlt : pos < depth)
    (hinv : SideInv beats arr depth) :
    SideInv beats (removeLevel arr depth pos).1 (removeLevel arr depth pos).2 := by
  obtain ⟨hd, hsorted, hempty⟩ := hinv
  have hchar := removeLevel_apply arr depth pos hlt
  have hd2 : (removeLevel arr depth pos).2 = depth - 1 := rfl
  refine ⟨by omega, ?_, ?_⟩
  · intro i hi j hj
    rw [hd2] at hi
    rw [hchar i, hchar j]
    split_ifs <;>
      first
        | omega
        | (exact hsorted _ (by omega) _ (by omega))
  · intro j hj
    rw [hd2] at hj
    rw [hchar j]
    by_cases hjd : j = depth - 1
    · rw [if_pos hjd]
    · rw [if_neg hjd, if_neg (by omega)]
      exact hempty j (by omega)

theorem replaceQty_inv (beats : Price → Price → Bool) (arr : Nat → PriceLevel)
    (depth pos : Nat) (qty : Quantity) (hlt : pos < depth)
    (hinv : SideInv beats arr depth) :
    SideInv beats (Function.update arr pos { arr pos with qty := qty }) depth := by
  obtain ⟨hd, hsorted, hempty⟩ := hinv
  have hprice : ∀ k,
      ((Function.update arr pos { arr pos with qty := qty }) k).price =
        (arr k).price := by
    intro k
    by_cases hk : k = pos
    · subst hk
      rw [Function.update_same]
    · rw [Function.update_noteq hk]
  refine ⟨hd, ?_, ?_⟩
  · intro i hi j hj
    rw [hprice i, hprice j]
    exact hsorted i hi j hj
  · intro j hj
    rw [Function.update_noteq (by omega)]
    exact hempty j hj

theorem updateSide_inv (beats : Price → Price → Bool)
    (htrans : ∀ a b c, beats a b = true → beats b c = true → beats a c = true)
    (hconn : ∀ a b, beats a b = false → a ≠ b → beats b a = true)
    (arr : Nat → PriceLevel) (depth : Nat) (price : Price) (qty : Quantity)
    (hinv : SideInv beats arr depth) :
    SideInv beats (updateSide beats arr depth price qty).1
      (updateSide beats arr depth price qty).2 := by
  have hM : MAX_LEVELS = 10 := rfl
  obtain ⟨hd, hsorted, hempty⟩ := hinv
  obtain ⟨hfle, hfbefore, hfstop⟩ := find_position_spec beats arr depth price
  simp only [updateSide]
  by_cases hq : qty.raw = 0
  · rw [if_pos hq]
    by_cases hc : find_position beats arr depth price < depth ∧
        (arr (find_position beats arr depth price)).price = price
    · rw [if_pos hc]
      exact removeLevel_inv beats arr depth _ hc.1 ⟨hd, hsorted, hempty⟩
    · rw [if_neg hc]
      exact ⟨hd, hsorted, hempty⟩
  · rw [if_neg hq]
    by_cases hc : find_position beats arr depth price < depth ∧
        (arr (find_position beats arr depth price)).price = price
    · rw [if_pos hc]
      exact replaceQty_inv beats arr depth _ qty hc.1 ⟨hd, hsorted, hempty⟩
    · rw [if_neg hc]
      unfold insertLevel
      have hat : find_position beats arr depth price < depth →
          beats price (arr (find_position beats arr depth price)).price = true := by
        intro hlt
        refine hconn _ _ (hfstop hlt) ?_
        intro he
        exact hc ⟨hlt, he⟩
      by_cases hfull : MAX_LEVELS ≤ depth
      · rw [if_pos hfull]
        by_cases hposfull : MAX_LEVELS ≤ find_position beats arr depth price
        · rw [if_pos hposfull]
          exact ⟨hd, hsorted, hempty⟩
        · rw [if_neg hposfull]
          exact insertLevelCore_inv beats htrans arr depth (MAX_LEVELS - 1) _
            price qty (by omega) (by omega) (by omega) (by omega)
            hsorted hempty hfbefore hat
      · rw [if_neg hfull]
        exact insertLevelCore_inv beats htrans arr depth depth _ price qty
          hfle (by omega) (Nat.le_refl depth) (by omega)
          hsorted hempty hfbefore hat

/-- The whole-book invariant: both sides sorted best-first within their
depth, depths bounded, and all slots beyond the depth canonically empty. -/
def BookInv (b : OrderBook) : Prop :=
  SideInv bidBeats b.bids b.bid_depth ∧ SideInv askBeats b.asks b.ask_depth

theorem bookInv_new : BookInv OrderBook.new := by
  have hdb : OrderBook.new.bid_depth = 0 := rfl
  have hda : OrderBook.new.ask_depth = 0 := rfl
  refine ⟨⟨by omega, ?_, ?_⟩, ⟨by omega, ?_, ?_⟩⟩ <;>
    intro j hj <;>
    first
      | (rw [hdb] at hj; omega)
      | (rw [hda] at hj; omega)
      | rfl

theorem bookInv_update_level (b : OrderBook) (side : Side) (price : Price)
    (qty : Quantity) (hinv : BookInv b) :
    BookInv (b.update_level side price qty) := by
  obtain ⟨hbid, hask⟩ := hinv
  cases side with
  | buy =>
    exact ⟨updateSide_inv bidBeats bidBeats_trans bidBeats_conn
      b.bids b.bid_depth price qty hbid, hask⟩
  | sell =>
    exact ⟨hbid, updateSide_inv askBeats askBeats_trans askBeats_conn
      b.asks b.ask_depth price qty hask⟩

theorem bookInv_foldl (ops : List (Side × Price × Quantity)) :
    ∀ b : OrderBook, BookInv b →
      BookInv (ops.foldl (fun b op => b.update_level op.1 op.2.1 op.2.2) b) := by
  induction ops with
  | nil => exact fun b hb => hb
  | cons op rest ih =>
    intro b hb
    exact ih _ (bookInv_update_level b op.1 op.2.1 op.2.2 hb)

theorem bookInv_applyUpdates (ops : List (Side × Price × Quantity)) :
    BookInv (applyUpdates ops) :=
  bookInv_foldl ops OrderBook.new bookInv_new

/-- C1: after any sequence of `update_level` calls on a fresh OrderBook, the
bid levels in positions `[0, bid_depth)` are strictly descending by price,
the ask levels in `[0, ask_depth)` are strictly ascending by price, both
depths are at most `MAX_LEVELS`, and every slot at position `>= depth` on
its side is the canonical empty `PriceLevel` (order_count 0, zero price and
quantity). -/
theorem C1_book_invariants (ops : List (Side × Price × Quantity)) :
    (applyUpdates ops).bid_depth ≤ MAX_LEVELS ∧
    (applyUpdates ops).ask_depth ≤ MAX_LEVELS ∧
    (∀ i, i < (applyUpdates ops).bid_depth → ∀ j, j < i →
      ((applyUpdates ops).bids i).price.raw <
        ((applyUpdates ops).bids j).price.raw) ∧
    (∀ i, i < (applyUpdates ops).ask_depth → ∀ j, j < i →
      ((applyUpdates ops).asks j).price.raw <
        ((applyUpdates ops).asks i).price.raw) ∧
    (∀ j, (applyUpdates ops).bid_depth ≤ j →
      (applyUpdates ops).bids j = PriceLevel.empty) ∧
    (∀ j, (applyUpdates ops).ask_depth ≤ j →
      (applyUpdates ops).asks j = PriceLevel.empty) := by
  obtain ⟨⟨hbd, hbs, hbe⟩, ⟨had, has, hae⟩⟩ := bookInv_applyUpdates ops
  refine ⟨hbd, had, ?_, ?_, hbe, hae⟩
  · intro i hi j hj
    have := hbs i hi j hj
    simpa [bidBeats] using this
  · intro i hi j hj
    have := has i hi j hj
    simpa [askBeats] using this

theorem two_mul_tdiv_two (s : Int) :
    (0 ≤ s → 2 * Int.tdiv s 2 = s ∨ 2 * Int.tdiv s 2 = s - 1) ∧
    (s < 0 → 2 * Int.tdiv s 2 = s ∨ 2 * Int.tdiv s 2 = s + 1) := by
  cases s with
  | ofNat m =>
    have h : Int.tdiv (Int.ofNat m) 2 = Int.ofNat (m / 2) := rfl
    rw [h]
    simp only [Int.ofNat_eq_natCast]
    constructor
    · intro _
      omega
    · intro hneg
      exact absurd hneg (by omega)
  | negSucc m =>
    have h : Int.tdiv (Int.negSucc m) 2 = -Int.ofNat ((m + 1) / 2) := rfl
    rw [h]
    simp only [Int.ofNat_eq_natCast, Int.negSucc_eq]
    constructor
    · intro hpos
      exact absurd hpos (by omega)
    · intro _
      omega

/-- C6 counterexample: with best bid raw -2 and best ask raw -1 (both sides
populated via `update_level`), the sum is -3 and truncation toward zero
gives `mid_price` raw -1, so `mid_price().raw() * 2 = -2`, which is outside
the claimed set `{best_ask.raw() + best_bid.raw() - 1, best_ask.raw() +
best_bid.raw()} = {-4, -3}`: for negative odd sums the integer mean rounds
up, not down. -/
theorem C6_counterexample :
    (applyUpdates [(.buy, Price.from_raw (-2), Quantity.from_raw 1),
        (.sell, Price.from_raw (-1), Quantity.from_raw 1)]).best_bid =
      some (Price.from_raw (-2)) ∧
    (applyUpdates [(.buy, Price.from_raw (-2), Quantity.from_raw 1),
        (.sell, Price.from_raw (-1), Quantity.from_raw 1)]).best_ask =
      some (Price.from_raw (-1)) ∧
    (applyUpdates [(.buy, Price.from_raw (-2), Quantity.from_raw 1),
        (.sell, Price.from_raw (-1), Quantity.from_raw 1)]).mid_price =
      some (Price.from_raw (-1)) ∧
    ¬ ((-1 : Int) * 2 = (-1) + (-2) ∨ (-1 : Int) * 2 = (-1) + (-2) - 1) := by
  refine ⟨by decide, by decide, by decide, by decide⟩

/-- C6 (amended): whenever both book sides are populated, `mid_price` is the
integer mean of the raw best bid and best ask truncating toward zero, and
`mid_price().raw() * 2` lies in `{sum - 1, sum}` when the sum of the raw
best bid and ask is nonnegative, and in `{sum, sum + 1}` when the sum is
negative (truncation toward zero rounds odd negative sums up, so the
original two-element set must be widened on the negative side). -/
theorem C6_mid_price (b : OrderBook)
    (hb : 0 < b.bid_depth) (ha : 0 < b.ask_depth) :
    b.mid_price =
      some (Price.from_raw (Int.tdiv ((b.asks 0).price.raw + (b.bids 0).price.raw) 2)) ∧
    (0 ≤ (b.asks 0).price.raw + (b.bids 0).price.raw →
      (Int.tdiv ((b.asks 0).price.raw + (b.bids 0).price.raw) 2) * 2 =
          (b.asks 0).price.raw + (b.bids 0).price.raw ∨
      (Int.tdiv ((b.asks 0).price.raw + (b.bids 0).price.raw) 2) * 2 =
          (b.asks 0).price.raw + (b.bids 0).price.raw - 1) ∧
    ((b.asks 0).price.raw + (b.bids 0).price.raw < 0 →
      (Int.tdiv ((b.asks 0).price.raw + (b.bids 0).price.raw) 2) * 2 =
          (b.asks 0).price.raw + (b.bids 0).price.raw ∨
      (Int.tdiv ((b.asks 0).price.raw + (b.bids 0).price.raw) 2) * 2 =
          (b.asks 0).price.raw + (b.bids 0).price.raw + 1) := by
  obtain ⟨hpos, hneg⟩ := two_mul_tdiv_two ((b.asks 0).price.raw + (b.bids 0).price.raw)
  refine ⟨?_, ?_, ?_⟩
  · unfold OrderBook.mid_price OrderBook.best_ask OrderBook.best_bid
    rw [if_pos ha, if_pos hb]
  · intro h
    rcases hpos h with h1 | h1 <;> omega
  · intro h
    rcases hneg h with h1 | h1 <;> omega

theorem C6_mid_price_witness :
    0 < (applyUpdates [(.buy, Price.new 100 0, Quantity.new 10 0),
          (.sell, Price.new 102 0, Quantity.new 10 0)]).bid_depth ∧
    0 < (applyUpdates [(.buy, Price.new 100 0, Quantity.new 10 0),
          (.sell, Price.new 102 0, Quantity.new 10 0)]).ask_depth ∧
    (applyUpdates [(.buy, Price.new 100 0, Quantity.new 10 0),
        (.sell, Price.new 102 0, Quantity.new 10 0)]).mid_price =
      some (Price.from_raw (Int.tdiv
        (((applyUpdates [(.buy, Price.new 100 0, Quantity.new 10 0),
            (.sell, Price.new 102 0, Quantity.new 10 0)]).asks 0).price.raw +
          ((applyUpdates [(.buy, Price.new 100 0, Quantity.new 10 0),
            (.sell, Price.new 102 0, Quantity.new 10 0)]).bids 0).price.raw) 2)) :=
  ⟨by decide, by decide,
    (C6_mid_price (applyUpdates [(.buy, Price.new 100 0, Quantity.new 10 0),
        (.sell, Price.new 102 0, Quantity.new 10 0)])
      (by decide) (by decide)).1⟩

theorem exists_level_eq_findPos (beats : Price → Price → Bool)
    (hirrefl : ∀ a, beats a a = false) (arr : Nat → PriceLevel) (depth : Nat)
    (price : Price) (hsorted : SortedSide beats arr depth)
    (i : Nat) (hi : i < depth) (hpi : (arr i).price = price) :
    i = find_position beats arr depth price := by
  obtain ⟨hfle, hfbefore, hfstop⟩ := find_position_spec beats arr depth price
  rcases Nat.lt_trichotomy i (find_position beats arr depth price) with
    hlt | heq | hgt
  · have hib := hfbefore i hlt
    rw [hpi, hirrefl] at hib
    exact absurd hib (by simp)
  · exact heq
  · have hstop := hfstop (by omega)
    have hs := hsorted i hi _ hgt
    rw [hpi, hstop] at hs
    exact absurd hs (by simp)

theorem updateSide_qty0 (beats : Price → Price → Bool)
    (hirrefl : ∀ a, beats a a = false) (arr : Nat → PriceLevel) (depth : Nat)
    (price : Price) (hinv : SideInv beats arr depth) :
    ((∃ i, i < depth ∧ (arr i).price = price) →
      ∃ i, i < depth ∧ (arr i).price = price ∧
        (updateSide beats arr depth price (Quantity.from_raw 0)).2 = depth - 1 ∧
        (∀ j, j < i →
          (updateSide beats arr depth price (Quantity.from_raw 0)).1 j = arr j) ∧
        (∀ j, i ≤ j → j < depth - 1 →
          (updateSide beats arr depth price (Quantity.from_raw 0)).1 j =
            arr (j + 1)) ∧
        (∀ j, depth - 1 ≤ j →
          (updateSide beats arr depth price (Quantity.from_raw 0)).1 j =
            PriceLevel.empty)) ∧
    ((¬ ∃ i, i < depth ∧ (arr i).price = price) →
      updateSide beats arr depth price (Quantity.from_raw 0) = (arr, depth)) := by
  obtain ⟨hd, hsorted, hempty⟩ := hinv
  constructor
  · rintro ⟨i, hi, hpi⟩
    have hieq := exists_level_eq_findPos beats hirrefl arr depth price hsorted i hi hpi
    have hc : find_position beats arr depth price < depth ∧
        (arr (find_position beats arr depth price)).price = price := by
      rw [← hieq]
      exact ⟨hi, hpi⟩
    have hstep : updateSide beats arr depth price (Quantity.from_raw 0) =
        removeLevel arr depth (find_position beats arr depth price) := by
      simp only [updateSide]
      rw [if_pos (show (Quantity.from_raw 0).raw = 0 from rfl), if_pos hc]
    have hchar := removeLevel_apply arr depth (find_position beats arr depth price)
      hc.1
    refine ⟨i, hi, hpi, ?_, ?_, ?_, ?_⟩
    · rw [hstep]
      rfl
    · intro j hj
      rw [hstep, hchar j, if_neg (by omega), if_neg (by omega)]
    · intro j hj1 hj2
      rw [hstep, hchar j, if_neg (by omega), if_pos ⟨by omega, hj2⟩]
    · intro j hj
      rw [hstep, hchar j]
      by_cases hjd : j = depth - 1
      · rw [if_pos hjd]
      · rw [if_neg hjd, if_neg (by omega)]
        exact hempty j (by omega)
  · intro hnex
    have hc : ¬ (find_position beats arr depth price < depth ∧
        (arr (find_position beats arr depth price)).price = price) := by
      intro hc
      exact hnex ⟨find_position beats arr depth price, hc.1, hc.2⟩
    simp only [updateSide]
    rw [if_pos (show (Quantity.from_raw 0).raw = 0 from rfl), if_neg hc]

/-- C8: for every book state satisfying the book invariant (which holds for
all reachable states, see C1) and every side and price `p`,
`update_level(side, p, 0)` removes the level at price `p` on that side
(shifting subsequent levels one slot left, clearing the vacated slot and
decrementing that side's depth, with the other side untouched) if and only
if such a level existed; if no level at `p` exists on that side, the call
leaves the entire book unchanged. -/
theorem C8_remove_iff (b : OrderBook) (side : Side) (price : Price)
    (hinv : BookInv b) :
    ((∃ i, i < b.sideDepth side ∧ (b.sideLevels side i).price = price) →
      ∃ i, i < b.sideDepth side ∧ (b.sideLevels side i).price = price ∧
        (b.update_level side price (Quantity.from_raw 0)).sideDepth side =
          b.sideDepth side - 1 ∧
        (∀ j, j < i →
          (b.update_level side price (Quantity.from_raw 0)).sideLevels side j =
            b.sideLevels side j) ∧
        (∀ j, i ≤ j → j < b.sideDepth side - 1 →
          (b.update_level side price (Quantity.from_raw 0)).sideLevels side j =
            b.sideLevels side (j + 1)) ∧
        (∀ j, b.sideDepth side - 1 ≤ j →
          (b.update_level side price (Quantity.from_raw 0)).sideLevels side j =
            PriceLevel.empty) ∧
        (b.update_level side price (Quantity.from_raw 0)).sideDepth side.other =
          b.sideDepth side.other ∧
        (∀ j,
          (b.update_level side price (Quantity.from_raw 0)).sideLevels side.other j =
            b.sideLevels side.other j)) ∧
    ((¬ ∃ i, i < b.sideDepth side ∧ (b.sideLevels side i).price = price) →
      b.update_level side price (Quantity.from_raw 0) = b) := by
  obtain ⟨hbid, hask⟩ := hinv
  cases side with
  | buy =>
    have hgen := updateSide_qty0 bidBeats bidBeats_irrefl b.bids b.bid_depth
      price hbid
    constructor
    · intro hex
      obtain ⟨i, hi, hpi, hdp, h1, h2, h3⟩ := hgen.1 hex
      exact ⟨i, hi, hpi, hdp, h1, h2, h3, rfl, fun j => rfl⟩
    · intro hnex
      have hno := hgen.2 hnex
      show { b with
        bids := (updateSide bidBeats b.bids b.bid_depth price (Quantity.from_raw 0)).1,
        bid_depth :=
          (updateSide bidBeats b.bids b.bid_depth price (Quantity.from_raw 0)).2 } = b
      rw [hno]
  | sell =>
    have hgen := updateSide_qty0 askBeats askBeats_irrefl b.asks b.ask_depth
      price hask
    constructor
    · intro hex
      obtain ⟨i, hi, hpi, hdp, h1, h2, h3⟩ := hgen.1 hex
      exact ⟨i, hi, hpi, hdp, h1, h2, h3, rfl, fun j => rfl⟩
    · intro hnex
      have hno := hgen.2 hnex
      show { b with
        asks := (updateSide askBeats b.asks b.ask_depth price (Quantity.from_raw 0)).1,
        ask_depth :=
          (updateSide askBeats b.asks b.ask_depth price (Quantity.from_raw 0)).2 } = b
      rw [hno]

theorem C8_remove_iff_witness :
    ∃ i,
      i < (applyUpdates [(Side.buy, Price.new 100 0, Quantity.new 10 0)]).sideDepth
          Side.buy ∧
      ((applyUpdates [(Side.buy, Price.new 100 0, Quantity.new 10 0)]).sideLevels
          Side.buy i).price = Price.new 100 0 ∧
      ((applyUpdates [(Side.buy, Price.new 100 0, Quantity.new 10 0)]).update_level
          Side.buy (Price.new 100 0) (Quantity.from_raw 0)).sideDepth Side.buy =
        (applyUpdates [(Side.buy, Price.new 100 0, Quantity.new 10 0)]).sideDepth
          Side.buy - 1 ∧
      (∀ j, j < i →
        ((applyUpdates [(Side.buy, Price.new 100 0, Quantity.new 10 0)]).update_level
            Side.buy (Price.new 100 0) (Quantity.from_raw 0)).sideLevels Side.buy j =
          (applyUpdates [(Side.buy, Price.new 100 0, Quantity.new 10 0)]).sideLevels
            Side.buy j) ∧
      (∀ j, i ≤ j →
        j < (applyUpdates [(Side.buy, Price.new 100 0, Quantity.new 10 0)]).sideDepth
            Side.buy - 1 →
        ((applyUpdates [(Side.buy, Price.new 100 0, Quantity.new 10 0)]).update_level
            Side.buy (Price.new 100 0) (Quantity.from_raw 0)).sideLevels Side.buy j =
          (applyUpdates [(Side.buy, Price.new 100 0, Quantity.new 10 0)]).sideLevels
            Side.buy (j + 1)) ∧
      (∀ j, (applyUpdates [(Side.buy, Price.new 100 0, Quantity.new 10 0)]).sideDepth
            Side.buy - 1 ≤ j →
        ((applyUpdates [(Side.buy, Price.new 100 0, Quantity.new 10 0)]).update_level
            Side.buy (Price.new 100 0) (Quantity.from_raw 0)).sideLevels Side.buy j =
          PriceLevel.empty) ∧
      ((applyUpdates [(Side.buy, Price.new 100 0, Quantity.new 10 0)]).update_level
          Side.buy (Price.new 100 0) (Quantity.from_raw 0)).sideDepth
          Side.buy.other =
        (applyUpdates [(Side.buy, Price.new 100 0, Quantity.new 10 0)]).sideDepth
          Side.buy.other ∧
      (∀ j,
        ((applyUpdates [(Side.buy, Price.new 100 0, Quantity.new 10 0)]).update_level
            Side.buy (Price.new 100 0) (Quantity.from_raw 0)).sideLevels
            Side.buy.other j =
          (applyUpdates [(Side.buy, Price.new 100 0, Quantity.new 10 0)]).sideLevels
            Side.buy.other j) :=
  (C8_remove_iff (applyUpdates [(Side.buy, Price.new 100 0, Quantity.new 10 0)])
      Side.buy (Price.new 100 0)
      (bookInv_applyUpdates [(Side.buy, Price.new 100 0, Quantity.new 10 0)])).1
    ⟨0, by decide, by decide⟩

end HftEngine
